import Mathlib

/-!
Verification of the portfolio backtest engine: a shallow embedding of
`backend/services/backtest_engine.py` and `backend/services/metrics_calculator.py`.

Modelling conventions:
- Trading dates are day numbers (`Nat`); Python `float` prices and money are exact
  rationals (`ℚ`), so float rounding is out of scope and NaN cannot arise.
- The transcendental operations used by the metrics, Python `**` in the CAGR and
  `sqrt` in the volatility annualisation, are abstracted as function parameters
  `qpow`/`qsqrt`: no property proved here depends on their values.
- Python dicts keyed by asset code (`strategy.allocation`, `asset_data`, `holdings`)
  are represented positionally along the fixed asset list: dict keys are unique, so
  association by position over that list is equivalent to lookup by code.
- Only the `close` column is ever read by the engine, so a price series is a list of
  (date, close) pairs; `get_by_asset` returns rows filtered to the requested range
  and ordered by date.
-/

namespace QAlpha

/-- One configured asset: its code, its configured allocation weight, and its
fetched daily price series as (date, close) pairs. -/
structure AssetInput where
  code : String
  weight : ℚ
  series : List (Nat × ℚ)
deriving DecidableEq

/-- Lookup of the close price of a series on a date: `dt in asset_data[code].index`
and `asset_data[code].loc[dt, "close"]` in the source. -/
def priceOn : List (Nat × ℚ) → Nat → Option ℚ
  | [], _ => none
  | p :: rest, d => if p.1 = d then some p.2 else priceOn rest d

/-- Restriction of a series to the inclusive range, as done by
`MarketDataRepository.get_by_asset` and again by the date filter in
`BacktestEngine.run`. -/
def filterRange (s e : Nat) (series : List (Nat × ℚ)) : List (Nat × ℚ) :=
  series.filter (fun p => s ≤ p.1 && p.1 ≤ e)

/-- Fatal errors of a run. `noMarketData c` is the
`ValueError("No market data for asset c")` raised in `BacktestEngine.run`.
Modelled from the spec: `noTradingDates` stands for the `NoTradingDatesError` that
the spec names for an empty aligned date set; no code path in the source raises it,
the constructor exists only so that statements about it can be written down. -/
inductive BacktestError where
  | noMarketData (code : String)
  | noTradingDates
deriving DecidableEq

/-- The data-loading loop of `BacktestEngine.run`: for each configured asset in
order, fetch its rows in range and fail on the first asset with no data. -/
def loadAssetData (s e : Nat) : List AssetInput → Except BacktestError (List AssetInput)
  | [] => .ok []
  | a :: rest =>
    let data := filterRange s e a.series
    if data.isEmpty then .error (.noMarketData a.code)
    else
      match loadAssetData s e rest with
      | .error err => .error err
      | .ok others => .ok ({ a with series := data } :: others)

/-- Insertion into an ascending list, used to model Python `sorted`. -/
def insertSorted (d : Nat) : List Nat → List Nat
  | [] => [d]
  | x :: xs => if d ≤ x then d :: x :: xs else x :: insertSorted d xs

/-- Ascending sort of a date list, modelling Python `sorted`. -/
def sortDates (l : List Nat) : List Nat := l.foldr insertSorted []

/-- The aligned date sequence of `BacktestEngine.run`:
`sorted(set().union(*indices))` filtered to the requested range (the filter is
redundant once the series are pre-filtered, but the source performs it). -/
def alignedDates (s e : Nat) (assets : List AssetInput) : List Nat :=
  (sortDates ((assets.map (fun a => a.series.map (fun p => p.1))).flatten).dedup).filter
    (fun d => s ≤ d && d ≤ e)

/-- The mutable loop state of the simulation in `BacktestEngine.run`:
remaining cash, per-asset holdings (parallel to the asset list), the `first_day`
flag, and the equity curve built so far. -/
structure SimState where
  cash : ℚ
  holdings : List ℚ
  firstDay : Bool
  curve : List (Nat × ℚ)
deriving DecidableEq

/-- The state before the date loop: all cash, no holdings, first day pending. -/
def initState (initialCapital : ℚ) (assets : List AssetInput) : SimState :=
  { cash := initialCapital
    holdings := assets.map (fun _ => 0)
    firstDay := true
    curve := [] }

/-- Sum of the configured weights of the assets that have price data on `dt`
(`total_available_weight` in the source). -/
def availWeightSum (assets : List AssetInput) (dt : Nat) : ℚ :=
  ((assets.filter (fun a => (priceOn a.series dt).isSome)).map (fun a => a.weight)).sum

/-- The first-day purchase: each asset with data on `dt` receives
`cash * (weight / w) / price` shares; the others keep their previous holding. -/
def buyShares (assets : List AssetInput) (dt : Nat) (cash w : ℚ)
    (holdings : List ℚ) : List ℚ :=
  (assets.zip holdings).map (fun p =>
    match priceOn p.1.series dt with
    | some price => cash * (p.1.weight / w) / price
    | none => p.2)

/-- The `first_day` block of `BacktestEngine.run`: buy when the available-weight
sum is positive; in either case set `cash = 0` and clear the flag (the source does
both unconditionally). -/
def firstDayStep (assets : List AssetInput) (dt : Nat) (st : SimState) : SimState :=
  let w := availWeightSum assets dt
  let holdings :=
    if 0 < w then buyShares assets dt st.cash w st.holdings else st.holdings
  { st with holdings := holdings, cash := 0, firstDay := false }

/-- The daily revaluation: cash plus, over assets with data on `dt` and a strictly
positive holding, holding times close. -/
def dayValue (assets : List AssetInput) (dt : Nat) (cash : ℚ)
    (holdings : List ℚ) : ℚ :=
  cash + ((assets.zip holdings).map (fun p =>
    match priceOn p.1.series dt with
    | some price => if 0 < p.2 then p.2 * price else 0
    | none => 0)).sum

/-- The `has_data` flag: some asset has data on `dt` and a positive holding. -/
def hasDataOn (assets : List AssetInput) (dt : Nat) (holdings : List ℚ) : Bool :=
  (assets.zip holdings).any (fun p =>
    (priceOn p.1.series dt).isSome && decide (0 < p.2))

/-- One iteration of the date loop of `BacktestEngine.run`. -/
def simStep (assets : List AssetInput) (initialCapital : ℚ)
    (st : SimState) (dt : Nat) : SimState :=
  let st := if st.firstDay then firstDayStep assets dt st else st
  let total := dayValue assets dt st.cash st.holdings
  let v :=
    if hasDataOn assets dt st.holdings || st.curve.isEmpty then total
    else ((st.curve.getLast?).map (fun p => p.2)).getD initialCapital
  { st with curve := st.curve ++ [(dt, v)] }

/-- The whole date loop. -/
def simRun (assets : List AssetInput) (initialCapital : ℚ)
    (dates : List Nat) : SimState :=
  dates.foldl (simStep assets initialCapital) (initState initialCapital assets)

/-- MetricsCalculator.calculate_total_return. -/
def calculate_total_return (V : List ℚ) : ℚ :=
  if V.length < 2 then 0 else V.getLastD 0 / V.headD 0 - 1

/-- MetricsCalculator.calculate_annual_return; `qpow` abstracts Python `**`. -/
def calculate_annual_return (qpow : ℚ → ℚ → ℚ) (V : List ℚ) (startD endD : Nat) : ℚ :=
  if V.length < 2 then 0
  else
    let tr := calculate_total_return V
    let years : ℚ := ((endD : ℚ) - (startD : ℚ)) / (36525 / 100)
    if years ≤ 0 then 0 else qpow (1 + tr) (1 / years) - 1

/-- Running maximum continued from an already-seen maximum `m`. -/
def runningMaxFrom (m : ℚ) : List ℚ → List ℚ
  | [] => []
  | v :: vs => max m v :: runningMaxFrom (max m v) vs

/-- Pandas `cummax` over a value series. -/
def cummax : List ℚ → List ℚ
  | [] => []
  | v :: vs => v :: runningMaxFrom v vs

/-- Pointwise drawdown `(V - cummax V) / cummax V`. -/
def drawdownList (V : List ℚ) : List ℚ :=
  (V.zip (cummax V)).map (fun p => (p.1 - p.2) / p.2)

/-- MetricsCalculator.calculate_max_drawdown. -/
def calculate_max_drawdown (V : List ℚ) : ℚ :=
  if V.length < 2 then 0
  else
    match drawdownList V with
    | [] => 0
    | d :: ds => ds.foldl min d

/-- MetricsCalculator.calculate_drawdown_curve. The source emits one point per
entry of `dates`, reading `drawdown.iloc[i]`; the engine always passes one date
per equity point, and `zip` coincides with that indexing when the lengths agree
(theorems below carry that equality as a hypothesis). -/
def calculate_drawdown_curve (V : List ℚ) (dates : List Nat) : List (Nat × ℚ) :=
  if V.length < 2 then [] else dates.zip (drawdownList V)

/-- Pandas `pct_change().dropna()`: daily simple returns. -/
def pctChanges (V : List ℚ) : List ℚ :=
  (V.zip V.tail).map (fun p => p.2 / p.1 - 1)

/-- Sample variance with one delta degree of freedom, the square of pandas
`std()`; its square root is abstracted through `qsqrt` at the call sites. -/
def sampleVariance (l : List ℚ) : ℚ :=
  let n : ℚ := l.length
  let mean := l.sum / n
  ((l.map (fun x => (x - mean) ^ 2)).sum) / (n - 1)

/-- MetricsCalculator.calculate_volatility; `qsqrt` abstracts the square root,
so `qsqrt (sampleVariance returns)` stands for `returns.std()`. -/
def calculate_volatility (qsqrt : ℚ → ℚ) (tradingDays : ℚ) (returns : List ℚ) : ℚ :=
  if returns.length < 2 then 0
  else
    let dailyVol := qsqrt (sampleVariance returns)
    if dailyVol = 0 then 0 else dailyVol * qsqrt tradingDays

/-- MetricsCalculator.calculate_sharpe_ratio in the source. -/
def calculateSharpe (qsqrt : ℚ → ℚ) (riskFree tradingDays : ℚ)
    (returns : List ℚ) (annualRet : ℚ) : Option ℚ :=
  if returns.length = 0 then none
  else
    let vol := calculate_volatility qsqrt tradingDays returns
    if vol = 0 then none else some ((annualRet - riskFree) / vol)

/-- MetricsCalculator.calculate_sortino_ratio in the source. -/
def calculateSortino (qsqrt : ℚ → ℚ) (riskFree tradingDays : ℚ)
    (returns : List ℚ) (annualRet : ℚ) : Option ℚ :=
  if returns.length = 0 then none
  else
    let downside := returns.filter (fun r => r < 0)
    if downside.length = 0 then none
    else
      let downsideVol := qsqrt (sampleVariance downside) * qsqrt tradingDays
      if downsideVol = 0 then none else some ((annualRet - riskFree) / downsideVol)

/-- MetricsCalculator.calculate_calmar_ratio in the source. -/
def calculateCalmar (annualRet maxDD : ℚ) : Option ℚ :=
  if maxDD = 0 then none else some (annualRet / |maxDD|)

/-- The record returned by MetricsCalculator.calculate_all_metrics; the three
fields that the source names sharpe_ratio, sortino_ratio and calmar_ratio are
optional, `none` standing for an absent metric. -/
structure Metrics where
  total_return : ℚ
  annual_return : ℚ
  max_drawdown : ℚ
  volatility : ℚ
  sharpe : Option ℚ
  sortino : Option ℚ
  calmar : Option ℚ
deriving DecidableEq

/-- MetricsCalculator.calculate_all_metrics. -/
def calculate_all_metrics (qpow : ℚ → ℚ → ℚ) (qsqrt : ℚ → ℚ)
    (riskFree tradingDays : ℚ) (V : List ℚ) (startD endD : Nat) : Metrics :=
  let returns := pctChanges V
  let ar := calculate_annual_return qpow V startD endD
  let mdd := calculate_max_drawdown V
  { total_return := calculate_total_return V
    annual_return := ar
    max_drawdown := mdd
    volatility := calculate_volatility qsqrt tradingDays returns
    sharpe := calculateSharpe qsqrt riskFree tradingDays returns ar
    sortino := calculateSortino qsqrt riskFree tradingDays returns ar
    calmar := calculateCalmar ar mdd }

/-- One iteration of the benchmark loop of
`BacktestEngine._calculate_benchmark_curves`: the accumulator carries the
remembered `first_price` and the curve built so far. -/
def benchStep (prices : Nat → Option ℚ) (cap : ℚ)
    (st : Option ℚ × List (Nat × ℚ)) (d : Nat) : Option ℚ × List (Nat × ℚ) :=
  match prices d, st.1 with
  | some p, none => (some p, st.2 ++ [(d, cap)])
  | some p, some p0 => (some p0, st.2 ++ [(d, cap * (1 + (p - p0) / p0))])
  | none, _ =>
    match st.2.getLast? with
    | some lastPt => (st.1, st.2 ++ [(d, lastPt.2)])
    | none => st

/-- The per-benchmark curve over the aligned dates. -/
def benchmarkCurvePoints (prices : Nat → Option ℚ) (cap : ℚ)
    (dates : List Nat) : List (Nat × ℚ) :=
  (dates.foldl (benchStep prices cap) (none, [])).2

/-- BacktestEngine._calculate_benchmark_curves: for each benchmark that is
present and has rows in range, pair its key with its curve; benchmarks with no
rows in range are skipped (`continue`). -/
def calcBenchmarkCurves (s e : Nat) (benchmarks : List (String × List (Nat × ℚ)))
    (dates : List Nat) (cap : ℚ) : List (String × List (Nat × ℚ)) :=
  benchmarks.filterMap (fun b =>
    let data := filterRange s e b.2
    if data.isEmpty then none
    else some (b.1, benchmarkCurvePoints (fun d => priceOn data d) cap dates))

/-- The fields of the persisted BacktestResult that the engine computes. In the
exact-rational model `_sanitize_metric` is the identity (no NaN exists) and
`x or 0.0` is the identity on numbers, so the numeric fields are the metric
values themselves and the optional fields pass through unchanged. -/
structure BacktestRunResult where
  equityCurve : List (Nat × ℚ)
  total_return : ℚ
  annual_return : ℚ
  max_drawdown : ℚ
  sharpe : Option ℚ
  sortino : Option ℚ
  calmar : Option ℚ
  volatility : ℚ
  rebalanceCount : Nat
  drawdownCurve : List (Nat × ℚ)
  benchmarkCurves : List (String × List (Nat × ℚ))
deriving DecidableEq

/-- BacktestEngine.run, composed from the pieces above. -/
def backtestRun (qpow : ℚ → ℚ → ℚ) (qsqrt : ℚ → ℚ) (riskFree tradingDays : ℚ)
    (s e : Nat) (assets : List AssetInput)
    (benchmarks : List (String × List (Nat × ℚ))) (initialCapital : ℚ) :
    Except BacktestError BacktestRunResult :=
  match loadAssetData s e assets with
  | .error err => .error err
  | .ok loaded =>
    let dates := alignedDates s e loaded
    let st := simRun loaded initialCapital dates
    let V := st.curve.map (fun p => p.2)
    let m := calculate_all_metrics qpow qsqrt riskFree tradingDays V s e
    .ok
      { equityCurve := st.curve
        total_return := m.total_return
        annual_return := m.annual_return
        max_drawdown := m.max_drawdown
        sharpe := m.sharpe
        sortino := m.sortino
        calmar := m.calmar
        volatility := m.volatility
        rebalanceCount := 0
        drawdownCurve := calculate_drawdown_curve V dates
        benchmarkCurves := calcBenchmarkCurves s e benchmarks dates initialCapital }

/-- Stub exponential used to instantiate `qpow` in concrete runs whose claims do
not involve the CAGR value. -/
def qpow0 : ℚ → ℚ → ℚ := fun _ _ => 0

/-- Stub square root used to instantiate `qsqrt` in concrete runs whose claims do
not involve volatility values. -/
def qsqrt0 : ℚ → ℚ := fun _ => 0

/-- Written from the claim text, not from the source: once a baseline price `p0`
has been fixed, a date with price `p` emits `cap * (1 + (p - p0) / p0)` and a
date without a price repeats the previously emitted value `prev`. -/
def benchSpecWalk (prices : Nat → Option ℚ) (cap p0 : ℚ) : ℚ → List Nat → List (Nat × ℚ)
  | _, [] => []
  | prev, d :: ds =>
    match prices d with
    | some p =>
      (d, cap * (1 + (p - p0) / p0)) :: benchSpecWalk prices cap p0 (cap * (1 + (p - p0) / p0)) ds
    | none => (d, prev) :: benchSpecWalk prices cap p0 prev ds

/-- Written from the claim text, not from the source: dates before the first
price emit nothing; the first date with a price emits `cap` and fixes the
baseline; the rest of the walk follows `benchSpecWalk`. -/
def benchmarkCurveSpec (prices : Nat → Option ℚ) (cap : ℚ) : List Nat → List (Nat × ℚ)
  | [] => []
  | d :: ds =>
    match prices d with
    | none => benchmarkCurveSpec prices cap ds
    | some p0 => (d, cap) :: benchSpecWalk prices cap p0 cap ds

/-- Asset code letters for the concrete scenarios. -/
def codeA : String := "A"

/-- Second asset code of the concrete scenario. -/
def codeB : String := "B"

/-- Code of a zero-weight asset in the first-day edge case. -/
def codeZ : String := "Z"

/-- First benchmark key of the source's benchmark dict. -/
def keySh : String := "sh"

/-- Second benchmark key of the source's benchmark dict. -/
def keyHs : String := "hs300"

/-- The two assets of the spec's concrete scenario: A with weight 0.6 and closes
10, 11, 9 and B with weight 0.4 and closes 20, 20, 22 on days 1, 2, 3. -/
def assetsC5 : List AssetInput :=
  [⟨codeA, 3 / 5, [(1, 10), (2, 11), (3, 9)]⟩,
   ⟨codeB, 2 / 5, [(1, 20), (2, 20), (3, 22)]⟩]

/-- A zero-available-weight first day: on day 1 only the zero-weight asset Z has
data; the weight-1 asset B first trades on day 2. -/
def zwAssets : List AssetInput :=
  [⟨codeZ, 0, [(1, 10)]⟩, ⟨codeB, 1, [(2, 5)]⟩]

set_option maxHeartbeats 1000000 in
/-- C5: on the spec's concrete scenario (A with weight 0.6 and closes 10, 11, 9;
B with weight 0.4 and closes 20, 20, 22; initial capital 100000 over the three
aligned days) the simulator holds 6000 units of A and 2000 units of B, the
equity curve is 100000, 106000, 98000, and the produced total return is
98000 / 100000 - 1 = -0.02. -/
theorem concrete_scenario_run :
    (simRun assetsC5 100000 (alignedDates 1 3 assetsC5)).holdings = [6000, 2000] ∧
    (backtestRun qpow0 qsqrt0 (3 / 100) 252 1 3 assetsC5 [] 100000).map
      (fun r => r.equityCurve) = .ok [(1, 100000), (2, 106000), (3, 98000)] ∧
    (backtestRun qpow0 qsqrt0 (3 / 100) 252 1 3 assetsC5 [] 100000).map
      (fun r => r.total_return) = .ok (-(1 / 50)) := by
  refine ⟨?_, ?_, ?_⟩ <;>
    norm_num [backtestRun, loadAssetData, filterRange, alignedDates, sortDates, insertSorted,
      List.dedup, simRun, simStep, initState, assetsC5, firstDayStep, availWeightSum, priceOn,
      codeA, codeB, buyShares, dayValue, hasDataOn, calculate_all_metrics,
      calculate_total_return, Except.map]

/-- C1: evaluation of the run on a first aligned date whose available configured
weights sum to zero (only the zero-weight asset Z trades on day 1; the weight-1
asset B first trades on day 2). The source sets `cash = 0` and clears
`first_day` unconditionally, so no position is ever established and the recorded
portfolio values are 0 on every date, contradicting the claimed retry on the
next date and the claim that values never drop to zero. -/
theorem zero_weight_first_day_zeroes_capital :
    (backtestRun qpow0 qsqrt0 (3 / 100) 252 1 2 zwAssets [] 100000).map
      (fun r => r.equityCurve) = .ok [(1, 0), (2, 0)] ∧
    (simRun zwAssets 100000 (alignedDates 1 2 zwAssets)).holdings = [0, 0] := by
  constructor <;>
    norm_num [backtestRun, loadAssetData, filterRange, alignedDates, sortDates, insertSorted,
      List.dedup, simRun, simStep, initState, zwAssets, firstDayStep, availWeightSum, priceOn,
      codeZ, codeB, buyShares, dayValue, hasDataOn, Except.map]

/-- C2: in the same zero-available-weight scenario the first recorded equity
point is emitted while no position is held, and its value is 0, not the initial
capital 100000: the source has already zeroed the cash before recording. -/
theorem first_point_not_initial_capital_when_uninvested :
    (backtestRun qpow0 qsqrt0 (3 / 100) 252 1 2 zwAssets [] 100000).map
      (fun r => r.equityCurve.head?) = .ok (some (1, 0)) ∧
    (backtestRun qpow0 qsqrt0 (3 / 100) 252 1 2 zwAssets [] 100000).map
      (fun r => r.equityCurve.head?) ≠ .ok (some (1, 100000)) := by
  constructor <;>
    norm_num [backtestRun, loadAssetData, filterRange, alignedDates, sortDates, insertSorted,
      List.dedup, simRun, simStep, initState, zwAssets, firstDayStep, availWeightSum, priceOn,
      codeZ, codeB, buyShares, dayValue, hasDataOn, Except.map]

/-- C3 counterexample: a configured asset whose only row (day 5) lies outside
the requested range 10..20, so the union of in-range dates is empty; the run
fails, but with the per-asset no-market-data error, not with the
`NoTradingDatesError` the claim names. -/
theorem empty_union_error_is_not_noTradingDates :
    filterRange 10 20 [(5, 10)] = [] ∧
    backtestRun qpow0 qsqrt0 (3 / 100) 252 10 20 [⟨codeA, 1, [(5, 10)]⟩] [] 100000 ≠
      .error .noTradingDates := by
  constructor <;> norm_num [backtestRun, loadAssetData, filterRange]
  intro h
  exact BacktestError.noConfusion h

/-- C3 amended: whenever every configured asset has an empty in-range series
(equivalently, the union of the per-asset in-range dates is empty), the run
aborts during data loading with the no-market-data error for the first
configured asset, so no equity curve or metrics are produced; no distinct
no-trading-dates failure exists in the code. -/
theorem empty_union_fails_no_market_data (s e : Nat) (a0 : AssetInput)
    (rest : List AssetInput)
    (hempty : ∀ a ∈ a0 :: rest, filterRange s e a.series = []) :
    loadAssetData s e (a0 :: rest) = .error (.noMarketData a0.code) ∧
    ∀ qpow qsqrt riskFree tradingDays benchmarks cap,
      backtestRun qpow qsqrt riskFree tradingDays s e (a0 :: rest) benchmarks cap =
        .error (.noMarketData a0.code) := by
  have h0 : filterRange s e a0.series = [] := hempty a0 (List.mem_cons_self a0 rest)
  have hload : loadAssetData s e (a0 :: rest) = .error (.noMarketData a0.code) := by
    simp [loadAssetData, h0]
  refine ⟨hload, ?_⟩
  intro qpow qsqrt riskFree tradingDays benchmarks cap
  simp [backtestRun, hload]

/-- Witness for the amended C3 statement at a concrete input. -/
theorem empty_union_fails_no_market_data_witness :
    loadAssetData 10 20 [⟨codeA, 1, [(5, 10)]⟩] = .error (.noMarketData codeA) ∧
    backtestRun qpow0 qsqrt0 (3 / 100) 252 10 20 [⟨codeA, 1, [(5, 10)]⟩] [] 100000 =
      .error (.noMarketData codeA) := by
  have hempty : ∀ a ∈ [(⟨codeA, 1, [(5, 10)]⟩ : AssetInput)], filterRange 10 20 a.series = [] := by
    intro a ha
    rw [List.mem_singleton] at ha
    subst ha
    norm_num [filterRange]
  exact ⟨(empty_union_fails_no_market_data 10 20 _ [] hempty).1,
    (empty_union_fails_no_market_data 10 20 _ [] hempty).2 qpow0 qsqrt0 (3 / 100) 252 [] 100000⟩

theorem simStep_firstDay (assets : List AssetInput) (cap : ℚ) (st : SimState) (dt : Nat) :
    (simStep assets cap st dt).firstDay = false := by
  unfold simStep firstDayStep
  cases h : st.firstDay <;> simp [h]

theorem simStep_curve_eq (assets : List AssetInput) (cap : ℚ) (st : SimState) (dt : Nat) :
    ∃ v, (simStep assets cap st dt).curve = st.curve ++ [(dt, v)] := by
  unfold simStep firstDayStep
  cases h : st.firstDay <;> simp [h]

theorem foldl_sim_curve_length (assets : List AssetInput) (cap : ℚ) :
    ∀ (ds : List Nat) (st : SimState),
      (List.foldl (simStep assets cap) st ds).curve.length = st.curve.length + ds.length := by
  intro ds
  induction ds with
  | nil => intro st; rfl
  | cons d ds ih =>
    intro st
    obtain ⟨v, hv⟩ := simStep_curve_eq assets cap st d
    rw [List.foldl_cons, ih, hv]
    simp
    omega

theorem sim_curve_length (assets : List AssetInput) (cap : ℚ) (ds : List Nat) :
    (simRun assets cap ds).curve.length = ds.length := by
  unfold simRun
  rw [foldl_sim_curve_length]
  simp [initState]

theorem foldl_sim_curve_extends (assets : List AssetInput) (cap : ℚ) :
    ∀ (ds : List Nat) (st : SimState),
      ∃ ext, (List.foldl (simStep assets cap) st ds).curve = st.curve ++ ext := by
  intro ds
  induction ds with
  | nil => intro st; exact ⟨[], by simp⟩
  | cons d ds ih =>
    intro st
    obtain ⟨v, hv⟩ := simStep_curve_eq assets cap st d
    obtain ⟨ext, hext⟩ := ih (simStep assets cap st d)
    exact ⟨[(d, v)] ++ ext, by rw [List.foldl_cons, hext, hv, List.append_assoc]⟩

theorem foldl_sim_firstDay_false (assets : List AssetInput) (cap : ℚ) :
    ∀ (ds : List Nat) (st : SimState), ds ≠ [] →
      (List.foldl (simStep assets cap) st ds).firstDay = false := by
  intro ds
  induction ds with
  | nil => intro st h; exact absurd rfl h
  | cons d ds ih =>
    intro st _
    rw [List.foldl_cons]
    cases hds : ds with
    | nil => rw [List.foldl_nil]; exact simStep_firstDay assets cap st d
    | cons d2 ds2 => rw [← hds]; exact ih _ (by simp [hds])

theorem simStep_no_data (assets : List AssetInput) (cap : ℚ) (st : SimState) (dt : Nat)
    (hfd : st.firstDay = false)
    (hnd : hasDataOn assets dt st.holdings = false)
    (hne : st.curve.isEmpty = false) :
    (simStep assets cap st dt).curve =
      st.curve ++ [(dt, ((st.curve.getLast?).map (fun p => p.2)).getD cap)] := by
  unfold simStep
  rw [hfd]
  simp only [Bool.false_eq_true, if_false, hnd, hne, Bool.or_self, Bool.false_eq_true, if_false]

/-- C6: within any run, on a date strictly after the first one, if no asset
holding a positive quantity has price data on that date, the value recorded
there equals the previous date's recorded value, and the curve has one point
for every aligned date. -/
theorem flat_carry_forward (assets : List AssetInput) (cap : ℚ) (dates : List Nat)
    (i : Nat) (hi : i + 1 < dates.length)
    (hnone : ∀ pr ∈ assets.zip (simRun assets cap (dates.take (i + 1))).holdings,
      0 < pr.2 → priceOn pr.1.series (dates.getD (i + 1) 0) = none) :
    (simRun assets cap dates).curve.length = dates.length ∧
    ((simRun assets cap dates).curve.getD (i + 1) (0, 0)).2 =
      ((simRun assets cap dates).curve.getD i (0, 0)).2 := by
  refine ⟨sim_curve_length assets cap dates, ?_⟩
  set d := dates.getD (i + 1) 0 with hd
  have hget : dates[i + 1]? = some dates[i + 1] := List.getElem?_eq_getElem hi
  have hdval : dates[i + 1] = d := by
    rw [hd, List.getD_eq_getElem?_getD, hget]
    rfl
  set stI := simRun assets cap (dates.take (i + 1)) with hstI
  have htake_len : (dates.take (i + 1)).length = i + 1 := by
    rw [List.length_take]
    omega
  have hfd : stI.firstDay = false := by
    rw [hstI]
    unfold simRun
    exact foldl_sim_firstDay_false assets cap _ _ (by
      intro hnil
      rw [hnil] at htake_len
      simp at htake_len)
  have hlenI : stI.curve.length = i + 1 := by
    rw [hstI]
    unfold simRun
    rw [foldl_sim_curve_length, htake_len]
    simp [initState]
  have hneI : stI.curve.isEmpty = false := by
    cases hc : stI.curve with
    | nil => rw [hc] at hlenI; simp at hlenI
    | cons a l => rfl
  have hnd : hasDataOn assets d stI.holdings = false := by
    rw [hasDataOn, List.any_eq_false]
    intro pr hpr
    by_cases hpos : 0 < pr.2
    · rw [hnone pr hpr hpos]
      simp
    · simp [hpos]
  have hsplitStep : List.foldl (simStep assets cap) (initState cap assets) (dates.take (i + 2)) =
      simStep assets cap stI d := by
    have : dates.take (i + 2) = dates.take (i + 1) ++ [d] := by
      rw [List.take_succ, hget]
      simp [hdval]
    rw [this, List.foldl_append, List.foldl_cons, List.foldl_nil, hstI]
    rfl
  obtain ⟨ext, hext⟩ :=
    foldl_sim_curve_extends assets cap (dates.drop (i + 2))
      (List.foldl (simStep assets cap) (initState cap assets) (dates.take (i + 2)))
  have hfull : (simRun assets cap dates).curve =
      stI.curve ++ ([(d, ((stI.curve.getLast?).map (fun p => p.2)).getD cap)] ++ ext) := by
    conv_lhs => rw [simRun, ← List.take_append_drop (i + 2) dates]
    rw [List.foldl_append, hext, hsplitStep, simStep_no_data assets cap stI d hfd hnd hneI,
      List.append_assoc]
  obtain ⟨e, he⟩ : ∃ e, stI.curve[i]? = some e :=
    ⟨stI.curve.get ⟨i, by omega⟩, List.getElem?_eq_getElem (by omega)⟩
  have hlast : stI.curve.getLast? = some e := by
    rw [List.getLast?_eq_getElem?, hlenI]
    simpa using he
  have hv1 : (simRun assets cap dates).curve.getD (i + 1) (0, 0) = (d, e.2) := by
    rw [hfull, List.getD_eq_getElem?_getD, List.getElem?_append_right (by omega)]
    rw [hlenI]
    simp [hlast]
  have hv0 : (simRun assets cap dates).curve.getD i (0, 0) = e := by
    rw [hfull, List.getD_eq_getElem?_getD, List.getElem?_append_left (by omega), he]
    rfl
  rw [hv1, hv0]

/-- Witness for the carry-forward statement: one asset with data only on day 1,
so day 2 carries day 1's value forward. -/
theorem flat_carry_forward_witness :
    (simRun [⟨codeA, 1, [(1, 10)]⟩] 100000 [1, 2]).curve.length = 2 ∧
    ((simRun [⟨codeA, 1, [(1, 10)]⟩] 100000 [1, 2]).curve.getD 1 (0, 0)).2 =
      ((simRun [⟨codeA, 1, [(1, 10)]⟩] 100000 [1, 2]).curve.getD 0 (0, 0)).2 := by
  refine flat_carry_forward [⟨codeA, 1, [(1, 10)]⟩] 100000 [1, 2] 0 (by norm_num) ?_
  intro pr hpr hpos
  have hh : (simRun [⟨codeA, 1, [(1, 10)]⟩] 100000 ([1, 2].take 1)).holdings = [10000] := by
    norm_num [simRun, simStep, initState, firstDayStep, availWeightSum, priceOn, codeA,
      buyShares, dayValue, hasDataOn]
  rw [hh] at hpr
  simp only [List.zip_cons_cons, List.zip_nil_right, List.mem_singleton] at hpr
  subst hpr
  rfl

theorem sum_map_div {α : Type} (l : List α) (f : α → ℚ) (c : ℚ) :
    (l.map (fun a => f a / c)).sum = (l.map f).sum / c := by
  induction l with
  | nil => simp
  | cons a l ih => simp [ih, add_div]

theorem first_day_value_sum (dt : Nat) (cap w : ℚ) (hcap : 0 < cap) (hw : 0 < w) :
    ∀ l : List AssetInput, (∀ a ∈ l, 0 ≤ a.weight) →
      (∀ a ∈ l, ∀ q, priceOn a.series dt = some q → 0 < q) →
      ((l.zip (buyShares l dt cap w (l.map (fun _ => 0)))).map (fun p =>
          match priceOn p.1.series dt with
          | some price => if 0 < p.2 then p.2 * price else 0
          | none => 0)).sum =
        cap / w * ((l.filter (fun a => (priceOn a.series dt).isSome)).map
          (fun a => a.weight)).sum := by
  intro l
  induction l with
  | nil => intro _ _; simp [buyShares]
  | cons a l ih =>
    intro hws hps
    have hbuy : buyShares (a :: l) dt cap w ((a :: l).map (fun _ => 0)) =
        (match priceOn a.series dt with
          | some q => cap * (a.weight / w) / q
          | none => (0 : ℚ)) :: buyShares l dt cap w (l.map (fun _ => 0)) := by
      simp [buyShares]
    rw [hbuy]
    simp only [List.zip_cons_cons, List.map_cons, List.sum_cons]
    rw [ih (fun x hx => hws x (List.mem_cons_of_mem a hx))
      (fun x hx => hps x (List.mem_cons_of_mem a hx))]
    rcases hpr : priceOn a.series dt with _ | q
    · simp [hpr, List.filter_cons]
    · have hq : 0 < q := hps a (List.mem_cons_self a l) q hpr
      rcases (hws a (List.mem_cons_self a l)).lt_or_eq with hwpos | hw0
      · have hg : 0 < cap * (a.weight / w) / q :=
          div_pos (mul_pos hcap (div_pos hwpos hw)) hq
        simp only [hpr, List.filter_cons, Option.isSome_some, if_true, List.map_cons,
          List.sum_cons]
        rw [if_pos hg, div_mul_cancel₀ _ hq.ne']
        ring
      · simp only [hpr, List.filter_cons, Option.isSome_some, if_true, List.map_cons,
          List.sum_cons, ← hw0]
        norm_num

/-- C4: on a first day whose available configured weights sum to a positive
value, the re-normalized weights of the assets with data sum to 1, the cash
after the purchase is 0, the value recorded for that date is the full initial
capital, and the run's first equity point is (that date, initial capital). -/
theorem first_day_full_deployment (assets : List AssetInput) (cap : ℚ) (dt : Nat)
    (hw : ∀ a ∈ assets, 0 ≤ a.weight)
    (hp : ∀ a ∈ assets, ∀ q, priceOn a.series dt = some q → 0 < q)
    (hcap : 0 < cap)
    (hsum : 0 < availWeightSum assets dt) :
    ((assets.filter (fun a => (priceOn a.series dt).isSome)).map
        (fun a => a.weight / availWeightSum assets dt)).sum = 1 ∧
    (simStep assets cap (initState cap assets) dt).cash = 0 ∧
    (simStep assets cap (initState cap assets) dt).curve = [(dt, cap)] ∧
    ∀ rest, (simRun assets cap (dt :: rest)).curve.head? = some (dt, cap) := by
  have hone : ((assets.filter (fun a => (priceOn a.series dt).isSome)).map
      (fun a => a.weight / availWeightSum assets dt)).sum = 1 := by
    rw [sum_map_div]
    exact div_self hsum.ne'
  have hfds : firstDayStep assets dt (initState cap assets) =
      { cash := 0, holdings := buyShares assets dt cap (availWeightSum assets dt)
          (assets.map (fun _ => 0)), firstDay := false, curve := [] } := by
    unfold firstDayStep initState
    simp [hsum]
  have htotal : dayValue assets dt 0
      (buyShares assets dt cap (availWeightSum assets dt) (assets.map (fun _ => 0))) = cap := by
    unfold dayValue
    rw [first_day_value_sum dt cap (availWeightSum assets dt) hcap hsum assets hw hp]
    have hsame : ((assets.filter (fun a => (priceOn a.series dt).isSome)).map
        (fun a => a.weight)).sum = availWeightSum assets dt := rfl
    rw [hsame, div_mul_cancel₀ _ hsum.ne', zero_add]
  have htotal2 : dayValue assets dt 0 (buyShares assets dt cap (availWeightSum assets dt)
      (List.replicate assets.length 0)) = cap := by
    have hrepl : (assets.map (fun _ => (0 : ℚ))) = List.replicate assets.length 0 := by
      simp
    rw [← hrepl]
    exact htotal
  have hstep : simStep assets cap (initState cap assets) dt =
      { cash := 0, holdings := buyShares assets dt cap (availWeightSum assets dt)
          (assets.map (fun _ => 0)), firstDay := false, curve := [(dt, cap)] } := by
    unfold simStep
    rw [show (initState cap assets).firstDay = true from rfl, if_pos rfl, hfds]
    simp [htotal, htotal2]
  refine ⟨hone, by rw [hstep], by rw [hstep], ?_⟩
  intro rest
  have hrun : simRun assets cap (dt :: rest) =
      List.foldl (simStep assets cap) (simStep assets cap (initState cap assets) dt) rest := by
    rw [simRun, List.foldl_cons]
  obtain ⟨ext, hext⟩ :=
    foldl_sim_curve_extends assets cap rest (simStep assets cap (initState cap assets) dt)
  rw [hrun, hext, hstep]
  rfl

/-- Witness for the full-deployment statement on the concrete two-asset scenario. -/
theorem first_day_full_deployment_witness :
    ((assetsC5.filter (fun a => (priceOn a.series 1).isSome)).map
        (fun a => a.weight / availWeightSum assetsC5 1)).sum = 1 ∧
    (simStep assetsC5 100000 (initState 100000 assetsC5) 1).cash = 0 ∧
    (simStep assetsC5 100000 (initState 100000 assetsC5) 1).curve = [(1, 100000)] ∧
    (simRun assetsC5 100000 [1]).curve.head? = some (1, 100000) := by
  have h := first_day_full_deployment assetsC5 100000 1
    (by intro a ha; fin_cases ha <;> norm_num [assetsC5])
    (by
      intro a ha q hq
      fin_cases ha <;> (norm_num [assetsC5, priceOn] at hq; rw [← hq]; norm_num))
    (by norm_num)
    (by norm_num [availWeightSum, assetsC5, priceOn])
  exact ⟨h.1, h.2.1, h.2.2.1, h.2.2.2 []⟩

theorem pctChanges_len_one (V : List ℚ) (h : V.length = 1) : pctChanges V = [] := by
  obtain ⟨x, rfl⟩ := List.length_eq_one.mp h
  rfl

theorem total_return_short (V : List ℚ) (h : V.length < 2) :
    calculate_total_return V = 0 := by
  rw [calculate_total_return, if_pos h]

theorem annual_return_short (qpow : ℚ → ℚ → ℚ) (V : List ℚ) (s e : Nat)
    (h : V.length < 2) : calculate_annual_return qpow V s e = 0 := by
  rw [calculate_annual_return, if_pos h]

theorem max_drawdown_short (V : List ℚ) (h : V.length < 2) :
    calculate_max_drawdown V = 0 := by
  rw [calculate_max_drawdown, if_pos h]

theorem volatility_nil (qsqrt : ℚ → ℚ) (td : ℚ) : calculate_volatility qsqrt td [] = 0 := by
  rw [calculate_volatility, if_pos (by norm_num)]

theorem sharpe_nil (qsqrt : ℚ → ℚ) (rf td ar : ℚ) :
    calculateSharpe qsqrt rf td [] ar = none := by
  simp [calculateSharpe]

theorem sortino_nil (qsqrt : ℚ → ℚ) (rf td ar : ℚ) :
    calculateSortino qsqrt rf td [] ar = none := by
  simp [calculateSortino]

theorem calmar_zero (ar : ℚ) : calculateCalmar ar 0 = none := by
  rw [calculateCalmar, if_pos rfl]

/-- C8: for any run whose aligned date sequence is a single date, the produced
record has annual return 0, volatility 0, and absent Sharpe, Sortino and Calmar
values. -/
theorem single_date_metrics (qpow : ℚ → ℚ → ℚ) (qsqrt : ℚ → ℚ) (riskFree tradingDays : ℚ)
    (s e : Nat) (assets : List AssetInput) (benchmarks : List (String × List (Nat × ℚ)))
    (cap : ℚ) (la : List AssetInput) (d : Nat) (r : BacktestRunResult)
    (hload : loadAssetData s e assets = .ok la)
    (hdates : alignedDates s e la = [d])
    (hrun : backtestRun qpow qsqrt riskFree tradingDays s e assets benchmarks cap = .ok r) :
    r.annual_return = 0 ∧ r.volatility = 0 ∧ r.sharpe = none ∧ r.sortino = none ∧
      r.calmar = none := by
  unfold backtestRun at hrun
  rw [hload] at hrun
  dsimp only at hrun
  rw [hdates] at hrun
  simp only [Except.ok.injEq] at hrun
  subst hrun
  have hVlen : ((simRun la cap [d]).curve.map (fun p => p.2)).length = 1 := by
    rw [List.length_map, sim_curve_length]
    rfl
  have hpc : pctChanges ((simRun la cap [d]).curve.map (fun p => p.2)) = [] :=
    pctChanges_len_one _ hVlen
  refine ⟨?_, ?_, ?_, ?_, ?_⟩ <;>
    simp only [calculate_all_metrics, hpc]
  · exact annual_return_short qpow _ s e (by omega)
  · exact volatility_nil qsqrt tradingDays
  · exact sharpe_nil qsqrt riskFree tradingDays _
  · exact sortino_nil qsqrt riskFree tradingDays _
  · rw [max_drawdown_short _ (by omega)]
    exact calmar_zero _

/-- Witness for the single-date statement: one asset with one in-range row. -/
theorem single_date_metrics_witness :
    backtestRun qpow0 qsqrt0 (3 / 100) 252 1 1 [⟨codeA, 1, [(1, 10)]⟩] [] 100000 =
      .ok { equityCurve := [(1, 100000)], total_return := 0, annual_return := 0,
            max_drawdown := 0, sharpe := none, sortino := none, calmar := none,
            volatility := 0, rebalanceCount := 0, drawdownCurve := [],
            benchmarkCurves := [] } ∧
    (0 : ℚ) = 0 ∧ (none : Option ℚ) = none := by
  have hload : loadAssetData 1 1 [⟨codeA, 1, [(1, 10)]⟩] = .ok [⟨codeA, 1, [(1, 10)]⟩] := by
    norm_num [loadAssetData, filterRange]
  have hdates : alignedDates 1 1 [(⟨codeA, 1, [(1, 10)]⟩ : AssetInput)] = [1] := by
    norm_num [alignedDates, sortDates, insertSorted, List.dedup]
  have hrun : backtestRun qpow0 qsqrt0 (3 / 100) 252 1 1 [⟨codeA, 1, [(1, 10)]⟩] [] 100000 =
      .ok { equityCurve := [(1, 100000)], total_return := 0, annual_return := 0,
            max_drawdown := 0, sharpe := none, sortino := none, calmar := none,
            volatility := 0, rebalanceCount := 0, drawdownCurve := [],
            benchmarkCurves := [] } := by
    norm_num [backtestRun, loadAssetData, filterRange, alignedDates, sortDates, insertSorted,
      List.dedup, simRun, simStep, initState, firstDayStep, availWeightSum, priceOn, codeA,
      buyShares, dayValue, hasDataOn, calculate_all_metrics, calculate_total_return,
      calculate_annual_return, calculate_max_drawdown, drawdownList, cummax, runningMaxFrom,
      calculate_drawdown_curve, calculate_volatility, calculateSharpe, calculateSortino,
      calculateCalmar, pctChanges, calcBenchmarkCurves]
  have h := single_date_metrics qpow0 qsqrt0 (3 / 100) 252 1 1 [⟨codeA, 1, [(1, 10)]⟩] []
    100000 [⟨codeA, 1, [(1, 10)]⟩] 1 _ hload hdates hrun
  exact ⟨hrun, h.1, h.2.2.1⟩

theorem runningMaxFrom_length (vs : List ℚ) : ∀ m : ℚ, (runningMaxFrom m vs).length = vs.length := by
  induction vs with
  | nil => intro m; rfl
  | cons v vs ih => intro m; simp [runningMaxFrom, ih]

theorem cummax_length (V : List ℚ) : (cummax V).length = V.length := by
  cases V with
  | nil => rfl
  | cons v vs => simp [cummax, runningMaxFrom_length]

theorem mem_zip_runningMaxFrom_le (vs : List ℚ) :
    ∀ m : ℚ, ∀ pr ∈ vs.zip (runningMaxFrom m vs), pr.1 ≤ pr.2 := by
  induction vs with
  | nil => intro m pr h; cases h
  | cons v vs ih =>
    intro m pr hpr
    rw [runningMaxFrom, List.zip_cons_cons, List.mem_cons] at hpr
    rcases hpr with rfl | h
    · exact le_max_right m v
    · exact ih (max m v) pr h

theorem mem_zip_runningMaxFrom_pos (vs : List ℚ) :
    ∀ m : ℚ, 0 < m → (∀ v ∈ vs, 0 < v) →
      ∀ pr ∈ vs.zip (runningMaxFrom m vs), 0 < pr.2 := by
  induction vs with
  | nil => intro m _ _ pr h; cases h
  | cons v vs ih =>
    intro m hm hvs pr hpr
    rw [runningMaxFrom, List.zip_cons_cons, List.mem_cons] at hpr
    rcases hpr with rfl | h
    · exact lt_max_of_lt_left hm
    · exact ih (max m v) (lt_max_of_lt_left hm) (fun x hx => hvs x (List.mem_cons_of_mem v hx)) pr h

theorem mem_zip_cummax_le (V : List ℚ) : ∀ pr ∈ V.zip (cummax V), pr.1 ≤ pr.2 := by
  cases V with
  | nil => intro pr h; cases h
  | cons v vs =>
    intro pr hpr
    rw [cummax, List.zip_cons_cons, List.mem_cons] at hpr
    rcases hpr with rfl | h
    · exact le_refl v
    · exact mem_zip_runningMaxFrom_le vs v pr h

theorem mem_zip_cummax_pos (V : List ℚ) (hpos : ∀ v ∈ V, 0 < v) :
    ∀ pr ∈ V.zip (cummax V), 0 < pr.2 := by
  cases V with
  | nil => intro pr h; cases h
  | cons v vs =>
    intro pr hpr
    rw [cummax, List.zip_cons_cons, List.mem_cons] at hpr
    rcases hpr with rfl | h
    · exact hpos v (List.mem_cons_self v vs)
    · exact mem_zip_runningMaxFrom_pos vs v (hpos v (List.mem_cons_self v vs))
        (fun x hx => hpos x (List.mem_cons_of_mem v hx)) pr h

theorem drawdownList_nonpos (V : List ℚ) (hpos : ∀ v ∈ V, 0 < v) :
    ∀ x ∈ drawdownList V, x ≤ 0 := by
  intro x hx
  rw [drawdownList, List.mem_map] at hx
  obtain ⟨pr, hpr, rfl⟩ := hx
  have h1 := mem_zip_cummax_le V pr hpr
  have h2 := mem_zip_cummax_pos V hpos pr hpr
  exact div_nonpos_of_nonpos_of_nonneg (sub_nonpos.mpr h1) h2.le

theorem drawdownList_length (V : List ℚ) : (drawdownList V).length = V.length := by
  rw [drawdownList, List.length_map, List.length_zip, cummax_length, min_self]

/-- C7 counterexample: a one-point equity curve yields an empty drawdown curve
(zero points), not one point per equity point. -/
theorem drawdown_curve_single_point_empty :
    calculate_drawdown_curve [100000] [1] = [] ∧
    (calculate_drawdown_curve [100000] [1]).length ≠ 1 := by
  constructor <;> norm_num [calculate_drawdown_curve]

/-- C7 amended: for an equity curve of length at least 2 with positive values
and one date label per point, the drawdown curve has exactly one point per
equity point and every drawdown value is at most 0; a one-point curve yields an
empty drawdown curve instead. -/
theorem drawdown_curve_points (V : List ℚ) (dates : List Nat)
    (h2 : 2 ≤ V.length) (hlen : dates.length = V.length)
    (hpos : ∀ v ∈ V, 0 < v) :
    (calculate_drawdown_curve V dates).length = V.length ∧
    ∀ p ∈ calculate_drawdown_curve V dates, p.2 ≤ 0 := by
  have hnot : ¬ V.length < 2 := by omega
  rw [calculate_drawdown_curve, if_neg hnot]
  constructor
  · rw [List.length_zip, drawdownList_length, hlen, min_self]
  · intro p hp
    obtain ⟨a, b⟩ := p
    have hmem := (List.of_mem_zip hp).2
    exact drawdownList_nonpos V hpos b hmem

/-- Witness for the amended drawdown statement on the concrete scenario's curve. -/
theorem drawdown_curve_points_witness :
    (calculate_drawdown_curve [100000, 106000, 98000] [1, 2, 3]).length = 3 ∧
    ∀ p ∈ calculate_drawdown_curve [100000, 106000, 98000] [1, 2, 3], p.2 ≤ 0 := by
  have h := drawdown_curve_points [100000, 106000, 98000] [1, 2, 3] (by norm_num) (by norm_num)
    (by intro v hv; fin_cases hv <;> norm_num)
  exact ⟨h.1, h.2⟩

theorem benchAux_after_first (prices : Nat → Option ℚ) (cap : ℚ) :
    ∀ (ds : List Nat) (p0 prev : ℚ) (acc : List (Nat × ℚ)) (x : Nat × ℚ),
      acc.getLast? = some x → x.2 = prev →
      (List.foldl (benchStep prices cap) (some p0, acc) ds).2 =
        acc ++ benchSpecWalk prices cap p0 prev ds := by
  intro ds
  induction ds with
  | nil => intro p0 prev acc x hlast hprev; simp [benchSpecWalk]
  | cons d ds ih =>
    intro p0 prev acc x hlast hprev
    rw [List.foldl_cons]
    cases hpr : prices d with
    | some p =>
      have hstep : benchStep prices cap (some p0, acc) d =
          (some p0, acc ++ [(d, cap * (1 + (p - p0) / p0))]) := by
        simp [benchStep, hpr]
      rw [hstep, ih p0 (cap * (1 + (p - p0) / p0)) _ (d, cap * (1 + (p - p0) / p0))
        (List.getLast?_concat _) rfl]
      simp [benchSpecWalk, hpr]
    | none =>
      have hstep : benchStep prices cap (some p0, acc) d = (some p0, acc ++ [(d, prev)]) := by
        simp [benchStep, hpr, hlast, hprev]
      rw [hstep, ih p0 prev _ (d, prev) (List.getLast?_concat _) rfl]
      simp [benchSpecWalk, hpr]

/-- C9: the per-benchmark curve computed by the source coincides with the
claim's description: the first aligned date with a price emits the initial
capital and fixes the baseline, every later date with price p emits
initial capital times (1 + (p - p0) / p0), and a date without a price after the
first emitted point repeats the previously emitted value. -/
theorem benchmark_curve_matches_spec (prices : Nat → Option ℚ) (cap : ℚ) :
    ∀ dates : List Nat,
      benchmarkCurvePoints prices cap dates = benchmarkCurveSpec prices cap dates := by
  intro dates
  induction dates with
  | nil => rfl
  | cons d ds ih =>
    rw [benchmarkCurvePoints, List.foldl_cons]
    cases hpr : prices d with
    | none =>
      have hstep : benchStep prices cap (none, []) d = (none, []) := by
        simp [benchStep, hpr]
      rw [hstep, show benchmarkCurveSpec prices cap (d :: ds) =
        benchmarkCurveSpec prices cap ds by simp [benchmarkCurveSpec, hpr]]
      exact ih
    | some p0 =>
      have hstep : benchStep prices cap (none, []) d = (some p0, [(d, cap)]) := by
        simp [benchStep, hpr]
      rw [hstep, benchAux_after_first prices cap ds p0 cap [(d, cap)] (d, cap) rfl rfl]
      simp [benchmarkCurveSpec, hpr]

theorem priceOn_eq_none (data : List (Nat × ℚ)) (d : Nat) (h : ∀ p ∈ data, p.1 ≠ d) :
    priceOn data d = none := by
  induction data with
  | nil => rfl
  | cons p rest ih =>
    rw [priceOn, if_neg (h p (List.mem_cons_self p rest))]
    exact ih (fun x hx => h x (List.mem_cons_of_mem p hx))

theorem benchPoints_all_none (prices : Nat → Option ℚ) (cap : ℚ) :
    ∀ dates : List Nat, (∀ d ∈ dates, prices d = none) →
      benchmarkCurvePoints prices cap dates = [] := by
  intro dates
  induction dates with
  | nil => intro _; rfl
  | cons d ds ih =>
    intro h
    rw [benchmarkCurvePoints, List.foldl_cons,
      show benchStep prices cap (none, []) d = (none, []) by
        simp [benchStep, h d (List.mem_cons_self d ds)]]
    exact ih (fun x hx => h x (List.mem_cons_of_mem d hx))

/-- C10: a benchmark with at least one in-range row, none of whose in-range
dates occurs among the aligned dates, keeps its key in the output paired with an
empty point list, while any key all of whose series have no in-range rows is
omitted from the output entirely. -/
theorem benchmark_key_present_with_empty_curve (s e : Nat)
    (benchmarks : List (String × List (Nat × ℚ))) (dates : List Nat) (cap : ℚ)
    (key : String) (series : List (Nat × ℚ))
    (hmem : (key, series) ∈ benchmarks)
    (hne : (filterRange s e series).isEmpty = false)
    (hdisj : ∀ p ∈ filterRange s e series, p.1 ∉ dates) :
    (key, ([] : List (Nat × ℚ))) ∈ calcBenchmarkCurves s e benchmarks dates cap ∧
    ∀ k2 : String, (∀ b ∈ benchmarks, b.1 = k2 → (filterRange s e b.2).isEmpty = true) →
      k2 ∉ (calcBenchmarkCurves s e benchmarks dates cap).map (fun b => b.1) := by
  constructor
  · rw [calcBenchmarkCurves]
    apply List.mem_filterMap.mpr
    refine ⟨(key, series), hmem, ?_⟩
    have hpts : benchmarkCurvePoints (fun d => priceOn (filterRange s e series) d) cap
        dates = [] := by
      apply benchPoints_all_none
      intro d hd
      apply priceOn_eq_none
      intro p hp heq
      exact hdisj p hp (heq ▸ hd)
    simp only [hne, Bool.false_eq_true, if_false, hpts]
  · intro k2 hk2 hmem2
    rw [List.mem_map] at hmem2
    obtain ⟨b2, hb2mem, hb2eq⟩ := hmem2
    rw [calcBenchmarkCurves, List.mem_filterMap] at hb2mem
    obtain ⟨b, hb, hfb⟩ := hb2mem
    by_cases hemp : (filterRange s e b.2).isEmpty = true
    · rw [if_pos hemp] at hfb
      exact Option.noConfusion hfb
    · rw [if_neg hemp] at hfb
      have hb1 : b2.1 = b.1 := by
        have := Option.some.inj hfb
        rw [← this]
      exact hemp (hk2 b hb (by rw [← hb1, hb2eq]))

/-- Witness for the empty-curve benchmark statement: the sh benchmark has one
row on day 5, the aligned dates are days 1 and 2, and the hs key with no data is
absent. -/
theorem benchmark_key_present_with_empty_curve_witness :
    (keySh, ([] : List (Nat × ℚ))) ∈
      calcBenchmarkCurves 1 10 [(keySh, [(5, 3000)])] [1, 2] 100000 ∧
    keyHs ∉ (calcBenchmarkCurves 1 10 [(keySh, [(5, 3000)])] [1, 2] 100000).map
      (fun b => b.1) := by
  have h := benchmark_key_present_with_empty_curve 1 10 [(keySh, [(5, 3000)])] [1, 2] 100000
    keySh [(5, 3000)]
    (List.mem_singleton.mpr rfl)
    (by norm_num [filterRange])
    (by intro p hp; norm_num [filterRange] at hp; rw [hp]; norm_num)
  refine ⟨h.1, h.2 keyHs ?_⟩
  intro b hb heq
  rw [List.mem_singleton] at hb
  subst hb
  exact absurd heq (by simp [keySh, keyHs])

end QAlpha
